import Mathlib

/-!
Verification of `scripts/json_to_yaml/convert.py` (graph store JSON→YAML
conversion utility).

This file gives a shallow embedding of the converter's core pipeline:
the data model (`JValue`, `ConversionTask`-derived records), the fixed
Draft-7 schemas of `SCHEMAS`, the per-kind validation (`iter_errors`),
the variables-specific checks (`assert_unique_variable_keys`), the
cross-validation (`cross_validate`), identifier normalization
(`apply_normalization`), rendering (`render_yaml`), and the writer state
machine (`handle_task` / `write_output` / `process`).

External collaborators of the script are modelled as parameters or
oracles, mirroring the spec's component boundary:
* the JSON parser (`json.load`) — each task carries its parse result;
* the YAML emitter (`ruamel.yaml`) — a `dump : JValue → String` parameter;
* percent decoding (`urllib.parse.unquote`) — an `unquote` parameter;
* the filesystem — a finite map from paths to file contents, plus a
  per-task fault record standing for the `OSError`s the script catches.

Floating-point payloads are outside the model: no claim touches numeric
subtleties, so JSON numbers are embedded as integers.
-/

/-- JSON values as produced by `json.load` in the script.  Python dicts are
association lists with unique keys in insertion order. -/
inductive JValue where
  | null
  | bool (b : Bool)
  | int (n : Int)
  | str (s : String)
  | arr (xs : List JValue)
  | obj (fields : List (String × JValue))

/-- Separator join, as Python `sep.join(parts)`. -/
def joinSep (sep : String) : List String → String
  | [] => ""
  | [x] => x
  | x :: y :: xs => x ++ sep ++ joinSep sep (y :: xs)

/-- Single-quote character, kept out of literals for readability. -/
def squote : Char := Char.ofNat 39

/-- Escape one character the way Python `repr` escapes it inside a string
literal quoted with `q` (backslash, the quote, newline, carriage return,
tab; other characters are kept verbatim — Python additionally hex-escapes
unprintable characters, which no document in scope contains). -/
def pyEscapeChar (q : Char) (c : Char) : String :=
  if c = '\\' then "\\\\"
  else if c = q then "\\" ++ String.mk [q]
  else if c = '\n' then "\\n"
  else if c = '\r' then "\\r"
  else if c = '\t' then "\\t"
  else String.mk [c]

/-- Python `repr` of a string: single-quoted, switching to double quotes
when the string contains a single quote but no double quote. -/
def pyQuote (s : String) : String :=
  let q := if s.data.contains squote ∧ ¬ s.data.contains '"' then '"' else squote
  String.mk [q] ++ String.join (s.data.map (pyEscapeChar q)) ++ String.mk [q]

/-- Python `repr` of a parsed JSON value (used by `jsonschema` error
messages; `json.load` yields `None`/`True`/`False`/ints/strs/lists/dicts). -/
def pyRepr : JValue → String
  | .null => "None"
  | .bool true => "True"
  | .bool false => "False"
  | .int n => toString n
  | .str s => pyQuote s
  | .arr xs => "[" ++ joinSep ", " (xs.attach.map (fun p => pyRepr p.1)) ++ "]"
  | .obj xs =>
      "\x7b" ++
        joinSep ", " (xs.attach.map (fun p => pyQuote p.1.1 ++ ": " ++ pyRepr p.1.2))
        ++ "\x7d"
termination_by v => sizeOf v
decreasing_by
  · have := List.sizeOf_lt_of_mem p.2
    simp only [JValue.arr.sizeOf_spec]
    omega
  · have h1 := List.sizeOf_lt_of_mem p.2
    have h2 : sizeOf p.1.2 < sizeOf p.1 := by
      obtain ⟨a, b⟩ := p.1
      simp only [Prod.mk.sizeOf_spec]
      omega
    simp only [JValue.obj.sizeOf_spec]
    omega

/-- Python `str()` of a parsed JSON value: identity on strings, `repr`
otherwise (matching CPython for `None`, booleans, ints, lists, dicts). -/
def pyStr : JValue → String
  | .str s => s
  | .null => "None"
  | .bool true => "True"
  | .bool false => "False"
  | .int n => toString n
  | v => pyRepr v

/-- Python truthiness of a parsed JSON value. -/
def truthy : JValue → Bool
  | .null => false
  | .bool b => b
  | .int n => n != 0
  | .str s => s != ""
  | .arr xs => !xs.isEmpty
  | .obj xs => !xs.isEmpty

/-- ASCII whitespace stripped by Python `str.strip()` (Unicode whitespace
beyond ASCII is out of scope; no claim depends on it). -/
def pyWS (c : Char) : Bool :=
  c = ' ' || c = '\t' || c = '\n' || c = '\r' || c = Char.ofNat 11 || c = Char.ofNat 12

/-- Python `str.strip()`. -/
def pyStrip (s : String) : String :=
  String.mk (((s.data.dropWhile pyWS).reverse.dropWhile pyWS).reverse)

/-- Dict lookup `d[k]` on the association-list representation (keys of a
parsed JSON object are unique, so first match is the match). -/
def lookupF (fs : List (String × JValue)) (k : String) : Option JValue :=
  (fs.find? (fun p => p.1 = k)).map (fun p => p.2)

/-- Python `d.get(k)` on an object, `none` on non-objects or missing keys. -/
def getField? (d : JValue) (k : String) : Option JValue :=
  match d with
  | .obj fs => lookupF fs k
  | _ => none

/-- Python `d.get(k, default)`. -/
def getFieldD (d : JValue) (k : String) (dflt : JValue) : JValue :=
  (getField? d k).getD dflt

/-- Dict assignment on the association list: replace the value at an
existing key in place (Python dicts keep the key's insertion position on
overwrite), append a fresh key at the end. -/
def setAssoc : List (String × JValue) → String → JValue → List (String × JValue)
  | [], k, v => [(k, v)]
  | (k', v') :: rest, k, v =>
      if k' = k then (k, v) :: rest else (k', v') :: setAssoc rest k v

/-- Python `d[k] = v` on objects; identity on non-objects. -/
def setField (d : JValue) (k : String) (v : JValue) : JValue :=
  match d with
  | .obj fs => .obj (setAssoc fs k v)
  | _ => d

/-- Document kinds: the closed set `GRAPH_META` / `GRAPH_NODE` /
`GRAPH_EDGE` / `GRAPH_VARIABLES` of `convert.py`. -/
inductive Kind where
  | meta
  | node
  | edge
  | variables
deriving DecidableEq

/-- One element of a `jsonschema` error path (`absolute_path` holds
property names and array indices). -/
inductive PathElem where
  | str (s : String)
  | idx (n : Nat)
deriving DecidableEq

/-- A validation error as produced by `Draft7Validator.iter_errors`:
the field path at which it occurred and its message. -/
structure VError where
  path : List PathElem
  message : String
deriving DecidableEq

/-- Type-mismatch error of the `type` keyword. -/
def typeErr (tname : String) (v : JValue) (path : List PathElem) : VError :=
  { path := path,
    message := pyRepr v ++ " is not of type " ++ pyQuote tname }

/-- Errors of the `required` keyword: one per missing property, in the
order the schema lists them, at the object's own path. -/
def requiredErrs (req : List String) (fs : List (String × JValue))
    (path : List PathElem) : List VError :=
  (req.filter (fun k => (lookupF fs k).isNone)).map
    (fun k => { path := path, message := pyQuote k ++ " is a required property" })

/-- The `type: string` check of a `properties` subschema, at
`path ++ [k]`, skipped when the property is absent. -/
def checkStrProp (fs : List (String × JValue)) (k : String)
    (path : List PathElem) : List VError :=
  match lookupF fs k with
  | some (.str _) => []
  | some v => [typeErr "string" v (path ++ [.str k])]
  | none => []

/-- The `type: integer` check of a `properties` subschema (`jsonschema`
excludes booleans from `integer`). -/
def checkIntProp (fs : List (String × JValue)) (k : String)
    (path : List PathElem) : List VError :=
  match lookupF fs k with
  | some (.int _) => []
  | some v => [typeErr "integer" v (path ++ [.str k])]
  | none => []

/-- The `type: object` check of a `properties` subschema. -/
def checkObjProp (fs : List (String × JValue)) (k : String)
    (path : List PathElem) : List VError :=
  match lookupF fs k with
  | some (.obj _) => []
  | some v => [typeErr "object" v (path ++ [.str k])]
  | none => []

/-- The `format` property of the `meta` schema: `type: integer` plus
`enum: [2]`, each keyword contributing its own error. -/
def checkFormat (fs : List (String × JValue)) : List VError :=
  match lookupF fs "format" with
  | none => []
  | some v =>
      (match v with
       | .int _ => []
       | _ => [typeErr "integer" v [.str "format"]]) ++
      (match v with
       | .int 2 => []
       | _ => [{ path := [.str "format"],
                 message := pyRepr v ++ " is not one of " ++ pyRepr (.arr [.int 2]) }])

/-- The `position` property of the `node` schema: an object with optional
numeric `x` and `y` (integers stand in for JSON numbers here). -/
def checkPosition (fs : List (String × JValue)) : List VError :=
  match lookupF fs "position" with
  | none => []
  | some (.obj pfs) =>
      (match lookupF pfs "x" with
       | none => []
       | some (.int _) => []
       | some v => [typeErr "number" v [.str "position", .str "x"]]) ++
      (match lookupF pfs "y" with
       | none => []
       | some (.int _) => []
       | some v => [typeErr "number" v [.str "position", .str "y"]])
  | some v => [typeErr "object" v [.str "position"]]

/-- Sort a list of strings (used for the extras named by an
`additionalProperties` error, which `jsonschema` sorts). -/
def sortStrings (xs : List String) : List String :=
  List.insertionSort (fun a b => a ≤ b) xs

/-- The `additionalProperties: false` keyword: a single error at the
object's path naming every unexpected key, sorted and repr-quoted. -/
def additionalErrs (allowed : List String) (fs : List (String × JValue))
    (path : List PathElem) : List VError :=
  let extras := ((fs.map (fun p => p.1)).filter (fun k => !allowed.contains k)).dedup
  if extras.isEmpty then []
  else
    [{ path := path,
       message := "Additional properties are not allowed (" ++
         joinSep ", " ((sortStrings extras).map pyQuote) ++
         (if extras.length = 1 then " was" else " were") ++ " unexpected)" }]

/-- The fixed `meta` schema of `SCHEMAS`, evaluated keyword by keyword as
`Draft7Validator.iter_errors` does (keyword validators other than `type`
skip instances of the wrong type). -/
def validateMeta (d : JValue) : List VError :=
  match d with
  | .obj fs =>
      requiredErrs ["name", "version", "updatedAt", "format"] fs [] ++
      checkStrProp fs "name" [] ++
      checkIntProp fs "version" [] ++
      checkStrProp fs "updatedAt" [] ++
      checkFormat fs
  | _ => [typeErr "object" d []]

/-- The fixed `node` schema of `SCHEMAS`. -/
def validateNode (d : JValue) : List VError :=
  match d with
  | .obj fs =>
      requiredErrs ["id", "template"] fs [] ++
      checkStrProp fs "id" [] ++
      checkStrProp fs "template" [] ++
      checkObjProp fs "config" [] ++
      checkObjProp fs "state" [] ++
      checkPosition fs
  | _ => [typeErr "object" d []]

/-- The fixed `edge` schema of `SCHEMAS`. -/
def validateEdge (d : JValue) : List VError :=
  match d with
  | .obj fs =>
      requiredErrs ["source", "sourceHandle", "target", "targetHandle"] fs [] ++
      checkStrProp fs "id" [] ++
      checkStrProp fs "source" [] ++
      checkStrProp fs "sourceHandle" [] ++
      checkStrProp fs "target" [] ++
      checkStrProp fs "targetHandle" []
  | _ => [typeErr "object" d []]

/-- One entry of the `variables` schema's `items`: an object requiring
string `key` and `value`, with no additional properties. -/
def validateVarEntry (i : Nat) (e : JValue) : List VError :=
  match e with
  | .obj fs =>
      requiredErrs ["key", "value"] fs [.idx i] ++
      checkStrProp fs "key" [.idx i] ++
      checkStrProp fs "value" [.idx i] ++
      additionalErrs ["key", "value"] fs [.idx i]
  | _ => [typeErr "object" e [.idx i]]

/-- The `items` keyword over the array, entry `i` first. -/
def validateItems (i : Nat) : List JValue → List VError
  | [] => []
  | e :: rest => validateVarEntry i e ++ validateItems (i + 1) rest

/-- The fixed `variables` schema of `SCHEMAS`: an array of entries. -/
def validateVariables (d : JValue) : List VError :=
  match d with
  | .arr es => validateItems 0 es
  | _ => [typeErr "array" d []]

/-- `self.validators[task.kind].iter_errors(task.data)`: dispatch over the
fixed schema registry. -/
def iter_errors : Kind → JValue → List VError
  | .meta, d => validateMeta d
  | .node, d => validateNode d
  | .edge, d => validateEdge d
  | .variables, d => validateVariables d

/-- String form of one path element, as Python `str(p)`. -/
def elemStr : PathElem → String
  | .str s => s
  | .idx n => toString n

/-- Dot-joined field path, `'.'.join(str(p) for p in error.absolute_path)`. -/
def dotJoin (p : List PathElem) : String :=
  joinSep "." (p.map elemStr)

/-- `GraphConverter.format_validation_error`: message prefixed by the
dot-joined path, with no prefix when the joined path is empty (Python
tests the truthiness of the joined string). -/
def format_validation_error (e : VError) : String :=
  let path := dotJoin e.path
  (if path = "" then "" else path ++ ": ") ++ e.message

/-- Strict order on path elements: numeric indices before names — the
mixed case never arises for the fixed schemas (within one document all
error paths start alike), so any deterministic choice models Python's
element comparison — names and indices ordered naturally. -/
def elemLt : PathElem → PathElem → Bool
  | .idx a, .idx b => a < b
  | .idx _, .str _ => true
  | .str _, .idx _ => false
  | .str a, .str b => a < b

/-- Lexicographic order on error paths, the sort key
`lambda e: e.path` of `load_tasks`. -/
def pathLe : List PathElem → List PathElem → Bool
  | [], _ => true
  | _ :: _, [] => false
  | a :: as, b :: bs => if a = b then pathLe as bs else elemLt a b

/-- Sort relation on validation errors (by field path). -/
def VErrLE (a b : VError) : Prop := pathLe a.path b.path = true

instance : DecidableRel VErrLE := fun a b => by
  unfold VErrLE; infer_instance

/-- Python's `sorted` is a stable sort by a total preorder; a stable
insertion sort by the same preorder computes the same output. -/
def sortErrors (es : List VError) : List VError :=
  List.insertionSort VErrLE es

/-- Split a character list at every occurrence of `c` (the pieces between
separators, like `str.split` with a one-character separator). -/
def splitOnChar (c : Char) : List Char → List (List Char)
  | [] => [[]]
  | x :: xs =>
      match splitOnChar c xs with
      | [] => [[x]]
      | y :: ys => if x = c then [] :: y :: ys else (x :: y) :: ys

/-- Final component of a path (the `pathlib` name). -/
def pathName (p : String) : List Char :=
  List.getLastD (splitOnChar '/' p.data) []

/-- Suffix of a path's final component, as `pathlib.PurePath.suffix`:
the part of the name from its last dot, empty when the name has no dot
beyond position zero (dotfiles have no suffix). -/
def pathSuffix (p : String) : String :=
  let cs := pathName p
  match (List.range cs.length).filter (fun i => cs.getD i ' ' = '.') with
  | [] => ""
  | is =>
      let i := List.getLastD is 0
      if i = 0 then "" else String.mk (cs.drop i)

/-- Replace a path's suffix, as `pathlib.PurePath.with_suffix`. -/
def withSuffix (p : String) (suffix : String) : String :=
  let old := pathSuffix p
  String.mk (p.data.take (p.data.length - old.data.length)) ++ suffix

/-- A conversion task as produced by `collect_tasks`, before loading:
the dataclass fields of `ConversionTask` that the collector fills in,
plus the parse result standing for `json.load` of the source file
(task collection itself — directory traversal — is outside the core per
the spec, so collected tasks are the model's input). -/
structure RawTask where
  source : String
  kind : Kind
  output_ext : String
  schema_migrate : Bool
  encoded_id : Option String
  parsed : Except String JValue

/-- `ConversionTask.derive_target`: the source path with its suffix
replaced by the configured output extension, dot-prefixed if needed. -/
def derive_target (t : RawTask) : String :=
  let suffix := match t.output_ext.data with
                | '.' :: _ => t.output_ext
                | _ => "." ++ t.output_ext
  withSuffix t.source suffix

/-- `ConversionTask.decode_id`: percent-decode the encoded identifier via
the external `urllib.parse.unquote`, passed in as `unquote`. -/
def decode_id (unquote : String → String) (encoded_id : Option String) : Option String :=
  encoded_id.map unquote

/-- `GraphConverter.apply_normalization`: for `node` and `edge` documents
that parsed to a dict, when the decoded identifier is truthy, set
`data['id'] = str(data.get('id') or decoded)`. -/
def apply_normalization (unquote : String → String) (kind : Kind)
    (encoded_id : Option String) (d : JValue) : JValue :=
  let normalize : JValue → JValue := fun d =>
    match decode_id unquote encoded_id with
    | none => d
    | some decoded =>
        if decoded = "" then d
        else
          let current := getFieldD d "id" .null
          setField d "id" (.str (pyStr (if truthy current then current else .str decoded)))
  match kind, d with
  | .node, .obj fs => normalize (.obj fs)
  | .edge, .obj fs => normalize (.obj fs)
  | _, _ => d

/-- Trimmed key of one variables entry, `str(entry.get('key', '')).strip()`. -/
def trimKey (e : JValue) : String :=
  pyStrip (pyStr (getFieldD e "key" (.str "")))

/-- The loop body of `assert_unique_variable_keys`: `idx` is the position
of the head entry, `seen` maps already-seen trimmed keys to their index. -/
def checkVars (src : String) : Nat → List (String × Nat) → List JValue → Except String Unit
  | _, _, [] => .ok ()
  | idx, seen, entry :: rest =>
      match entry with
      | .obj _ =>
          let key := trimKey entry
          if key = "" then
            .error ("Variable at index " ++ toString idx ++ " missing key in " ++ src)
          else
            match (seen.find? (fun p => p.1 = key)).map (fun p => p.2) with
            | some prev =>
                .error ("Duplicate variable key " ++ pyQuote key ++ " in " ++ src ++
                  " (indexes " ++ toString prev ++ " and " ++ toString idx ++ ")")
            | none => checkVars src (idx + 1) (seen ++ [(key, idx)]) rest
      | _ => .error ("Invalid variable entry at index " ++ toString idx ++ " in " ++ src)

/-- `GraphConverter.assert_unique_variable_keys`, with `task.data or []`
replacing falsy payloads by the empty list. -/
def assert_unique_variable_keys (src : String) (d : JValue) : Except String Unit :=
  let vars := if truthy d then d else .arr []
  match vars with
  | .arr xs => checkVars src 0 [] xs
  | _ => .error ("Variables file is not an array: " ++ src)

/-- `GraphConverter.render_yaml`: dump through the external emitter and
append a newline when the dumped text does not already end with one. -/
def render_yaml (dump : JValue → String) (data : JValue) : String :=
  let text := dump data
  if List.isSuffixOf "\n".data text.data then text else text ++ "\n"

/-- A task after `load_tasks` filled in payload, rendered text and target
(the "loaded" state of `ConversionTask`). -/
structure LoadedTask where
  source : String
  kind : Kind
  data : JValue
  yaml_text : String
  target : String

/-- One iteration of the `load_tasks` loop over a task. -/
def loadOne (unquote : String → String) (dump : JValue → String)
    (t : RawTask) : Except String LoadedTask :=
  match t.parsed with
  | .error e => .error ("Failed to parse JSON " ++ t.source ++ ": " ++ e)
  | .ok d0 =>
      let d := if t.schema_migrate then apply_normalization unquote t.kind t.encoded_id d0 else d0
      let errors := sortErrors (iter_errors t.kind d)
      if errors.isEmpty then
        match (if t.kind = .variables then assert_unique_variable_keys t.source d else .ok ()) with
        | .error e => .error e
        | .ok _ =>
            .ok { source := t.source, kind := t.kind, data := d,
                  yaml_text := render_yaml dump d, target := derive_target t }
      else
        .error ("Validation failed for " ++ t.source ++ ": " ++
          joinSep "; " (errors.map format_validation_error))

/-- `GraphConverter.load_tasks`: load every task in order, stopping at the
first `ConversionError` (which aborts the run). -/
def load_tasks (unquote : String → String) (dump : JValue → String) :
    List RawTask → Except String (List LoadedTask)
  | [] => .ok []
  | t :: rest =>
      match loadOne unquote dump t with
      | .error e => .error e
      | .ok l =>
          match load_tasks unquote dump rest with
          | .error e => .error e
          | .ok ls => .ok (l :: ls)

/-- Node-id strings collected by `cross_validate`:
`str(t.data.get('id'))` over node tasks whose payload is a dict. -/
def nodeIdStrs (tasks : List LoadedTask) : List String :=
  (tasks.filter (fun t => t.kind = .node)).filterMap
    (fun t => match t.data with
              | .obj _ => some (pyStr (getFieldD t.data "id" .null))
              | _ => none)

/-- The missing endpoints of one edge task: trimmed `source` and `target`
values that are non-empty and not among the node ids. -/
def edgeMissing (node_ids : List String) (t : LoadedTask) : List String :=
  let data := match t.data with
              | .obj fs => JValue.obj fs
              | _ => .obj []
  let source := pyStrip (pyStr (getFieldD data "source" (.str "")))
  let target := pyStrip (pyStr (getFieldD data "target" (.str "")))
  [source, target].filter (fun n => n != "" && !node_ids.contains n)

/-- The edge loop of `cross_validate`, failing at the first edge with
missing endpoints. -/
def checkEdges (node_ids : List String) : List LoadedTask → Except String Unit
  | [] => .ok ()
  | e :: rest =>
      let missing := edgeMissing node_ids e
      if missing.isEmpty then checkEdges node_ids rest
      else .error ("Edge " ++ e.source ++ " references missing nodes: " ++
        joinSep ", " missing)

/-- `GraphConverter.cross_validate`: unique node ids (as a set-size
comparison against the node-task count), then referential integrity of
every edge. -/
def cross_validate (tasks : List LoadedTask) : Except String Unit :=
  let nodes := tasks.filter (fun t => t.kind = .node)
  let edges := tasks.filter (fun t => t.kind = .edge)
  let node_ids := (nodeIdStrs tasks).dedup
  if node_ids.length ≠ nodes.length then
    .error "Duplicate node IDs detected during validation"
  else checkEdges node_ids edges

/-- The run-level flags of `argparse.Namespace` that the core reads
(`root` abstracts `--root` presence; path lists and logging verbosity do
not influence the writer's decisions). -/
structure Args where
  in_place : Bool
  backup : Bool
  dry_run : Bool
  atomic : Bool
  validate_only : Bool
  root : Bool

/-- The filesystem as a finite map from paths to file contents. -/
abbrev FS := List (String × String)

/-- File content at a path. -/
def fsRead? (fs : FS) (p : String) : Option String :=
  (List.find? (fun q => q.1 = p) fs).map (fun q => q.2)

/-- `Path.exists()`. -/
def fsExists (fs : FS) (p : String) : Bool :=
  (fsRead? fs p).isSome

/-- Write `c` at path `p` (create or truncate). -/
def fsWrite (fs : FS) (p : String) (c : String) : FS :=
  if fsExists fs p then List.map (fun q => if q.1 = p then (p, c) else q) fs
  else fs ++ [(p, c)]

/-- The `OSError`s the environment may raise while the writer handles one
task, with their exception texts: reading back an existing target
(`read_text`), creating the target's parent directory (`mkdir`), copying
the backup (`shutil.copy2`), and writing the target (temporary file plus
`os.replace`, or `write_text`). -/
structure Faults where
  readFail : Bool
  readErr : String
  mkdirFail : Bool
  mkdirErr : String
  backupFail : Bool
  backupErr : String
  writeFail : Bool
  writeErr : String

/-- A fault-free environment. -/
def noFaults : Faults :=
  { readFail := false, readErr := "", mkdirFail := false, mkdirErr := "",
    backupFail := false, backupErr := "", writeFail := false, writeErr := "" }

/-- The mutable state of a `GraphConverter` run together with the
filesystem and the console log: the `converted` / `skipped` counters, the
`failures` list, and everything printed so far. -/
structure St where
  fs : FS
  converted : Nat
  skipped : Nat
  failures : List String
  log : List String

/-- Backup path: `source.with_suffix(source.suffix + '.bak')`. -/
def bakPath (source : String) : String :=
  withSuffix source (pathSuffix source ++ ".bak")

/-- `GraphConverter.write_output` on the filesystem: ensure the parent
directory (which may raise), copy the source to its `.bak` sibling when
backup mode is on and the source exists (may raise), then write the
rendered text to the target (atomic mode goes through a temporary file
and `os.replace`, plain mode through `write_text`; both may raise, and
both leave the same final map, the temporary name being transient). -/
def write_output (a : Args) (f : Faults) (t : LoadedTask) (fs : FS) :
    Except String FS :=
  if f.mkdirFail then .error f.mkdirErr
  else
    match (if a.backup && fsExists fs t.source then
             if f.backupFail then Except.error f.backupErr
             else Except.ok (fsWrite fs (bakPath t.source) ((fsRead? fs t.source).getD ""))
           else Except.ok fs) with
    | .error e => .error e
    | .ok fs1 =>
        if f.writeFail then .error f.writeErr
        else .ok (fsWrite fs1 t.target t.yaml_text)

/-- `GraphConverter.handle_task`: the writer state machine for one task.
Mirrors the control flow of the Python method: stdout mode first, then
the up-to-date check on an existing target (whose read may fail), then
the dry-run / validate-only skip, then the write with its `OSError`
handler.  The `stdout:` branch also prints the rendered text to standard
output; only the status line is logged here. -/
def handle_task (a : Args) (f : Faults) (t : LoadedTask) (st : St) : St :=
  let statusLine := t.source ++ " -> " ++ t.target
  let afterUpToDate : St → St := fun st =>
    if a.validate_only || a.dry_run then
      { st with log := st.log ++ ["dry-run: " ++ statusLine],
                skipped := st.skipped + 1 }
    else
      match write_output a f t st.fs with
      | .error e =>
          { st with failures := st.failures ++
              ["Failed to write " ++ t.target ++ ": " ++ e] }
      | .ok fs1 =>
          { st with fs := fs1,
                    log := st.log ++ ["ok: " ++ statusLine],
                    converted := st.converted + 1 }
  if !a.in_place && !(a.dry_run || a.validate_only) then
    { st with log := st.log ++ ["stdout: " ++ t.source],
              converted := st.converted + 1 }
  else if fsExists st.fs t.target then
    if f.readFail then
      { st with failures := st.failures ++
          ["Failed to read existing " ++ t.target ++ ": " ++ f.readErr] }
    else if (fsRead? st.fs t.target).getD "" = t.yaml_text then
      { st with log := st.log ++ ["skip: " ++ statusLine ++ " (up-to-date)"],
                skipped := st.skipped + 1 }
    else afterUpToDate st
  else afterUpToDate st

/-- The `for task in tasks: self.handle_task(task)` loop, threading the
per-task fault environment by task position. -/
def handleAll (a : Args) (faults : Nat → Faults) :
    Nat → List LoadedTask → St → St
  | _, [], st => st
  | i, t :: rest, st => handleAll a faults (i + 1) rest (handle_task a (faults i) t st)

/-- Fresh run state over a filesystem. -/
def initSt (fs : FS) : St :=
  { fs := fs, converted := 0, skipped := 0, failures := [], log := [] }

/-- The final `Summary:` line. -/
def summaryLine (st : St) : String :=
  "Summary: converted=" ++ toString st.converted ++ ", skipped=" ++
    toString st.skipped ++ ", failed=" ++ toString st.failures.length

/-- `GraphConverter.process`: the whole run over already-collected tasks
(collection is directory traversal, outside the core).  Empty collection
warns and succeeds; a `ConversionError` from loading or root-mode
cross-validation prints one `[error]` line and exits 1; otherwise every
task is handled, the summary printed, recorded failures echoed, and the
exit status is 0 exactly on zero failures. -/
def process (a : Args) (unquote : String → String) (dump : JValue → String)
    (raw : List RawTask) (faults : Nat → Faults) (fs0 : FS) : Nat × St :=
  if raw.isEmpty then
    (0, { initSt fs0 with
            log := ["[warn] No files matched input arguments; nothing to do"] })
  else
    match load_tasks unquote dump raw with
    | .error e => (1, { initSt fs0 with log := ["[error] " ++ e] })
    | .ok tasks =>
        match (if a.root then cross_validate tasks else .ok ()) with
        | .error e => (1, { initSt fs0 with log := ["[error] " ++ e] })
        | .ok _ =>
            let st := handleAll a faults 0 tasks (initSt fs0)
            let st := { st with log :=
              st.log ++ [summaryLine st] ++ st.failures.map (fun m => "[error] " ++ m) }
            (if st.failures.isEmpty then 0 else 1, st)

/-- Text ends with exactly one trailing newline character: it ends with a
newline and not with two. -/
def endsExactlyOneNl (s : String) : Bool :=
  List.isSuffixOf "\n".data s.data && !(List.isSuffixOf "\n\n".data s.data)

lemma lem_suffix_nl_append (t : String) :
    List.isSuffixOf "\n".data (t ++ "\n").data = true := by
  rw [List.isSuffixOf_iff_suffix, String.data_append]
  exact List.suffix_append t.data "\n".data

lemma lem_not_suffix_nlnl_append (t : String)
    (h : List.isSuffixOf "\n".data t.data = false) :
    List.isSuffixOf "\n\n".data (t ++ "\n").data = false := by
  rw [Bool.eq_false_iff] at h ⊢
  intro hs
  rw [List.isSuffixOf_iff_suffix, String.data_append] at hs
  obtain ⟨s, hseq⟩ := hs
  have hd2 : ("\n\n" : String).data = ['\n'] ++ ['\n'] := rfl
  rw [hd2] at hseq
  have hs' : (s ++ ['\n']) ++ ['\n'] = t.data ++ "\n".data := by
    rw [List.append_assoc]; exact hseq
  have ht : s ++ ['\n'] = t.data := List.append_cancel_right hs'
  apply h
  rw [List.isSuffixOf_iff_suffix]
  exact ⟨s, ht⟩

/-- C9, corrected.  The rendered text always ends with at least one
newline, and ends with exactly one whenever the emitter's own output does
not already end with two consecutive newlines; `render_yaml` appends a
missing newline but never strips surplus ones. -/
theorem C9_theorem (dump : JValue → String) (data : JValue) :
    List.isSuffixOf "\n".data (render_yaml dump data).data = true ∧
    (List.isSuffixOf "\n\n".data (dump data).data = false →
      endsExactlyOneNl (render_yaml dump data) = true) := by
  by_cases h : List.isSuffixOf "\n".data (dump data).data = true
  · have hr : render_yaml dump data = dump data := by
      unfold render_yaml; simp [h]
    refine ⟨by rw [hr]; exact h, fun h2 => ?_⟩
    unfold endsExactlyOneNl
    rw [hr, h, h2]
    rfl
  · have h' : List.isSuffixOf "\n".data (dump data).data = false :=
      Bool.eq_false_iff.mpr h
    have hr : render_yaml dump data = dump data ++ "\n" := by
      unfold render_yaml; simp [h']
    refine ⟨by rw [hr]; exact lem_suffix_nl_append (dump data), fun _ => ?_⟩
    unfold endsExactlyOneNl
    rw [hr, lem_suffix_nl_append (dump data),
      lem_not_suffix_nlnl_append (dump data) h']
    rfl

/-- C9 witness: concrete emitter output without a trailing newline gets
exactly one appended. -/
theorem C9_witness :
    List.isSuffixOf "\n\n".data ((fun (_ : JValue) => "a: 1") JValue.null).data = false ∧
    endsExactlyOneNl (render_yaml (fun _ => "a: 1") JValue.null) = true :=
  ⟨by decide, ( C9_theorem (fun _ => "a: 1") JValue.null).2 (by decide)⟩

/-- C9 counterexample: an emitter output already ending in a blank line is
passed through unchanged, so the rendered text ends with two newlines,
refuting "exactly one trailing newline" for every payload. -/
theorem C9_counterexample :
    endsExactlyOneNl (render_yaml (fun _ => "a: 1\n\n") JValue.null) = false := by
  decide

lemma lem_ht_stdout (a : Args) (f : Faults) (t : LoadedTask) (st : St)
    (h : (!a.in_place && !(a.dry_run || a.validate_only)) = true) :
    handle_task a f t st =
      { st with log := st.log ++ ["stdout: " ++ t.source],
                converted := st.converted + 1 } := by
  unfold handle_task
  simp only [h, if_true]

lemma lem_ht_readfail (a : Args) (f : Faults) (t : LoadedTask) (st : St)
    (h : (!a.in_place && !(a.dry_run || a.validate_only)) = false)
    (he : fsExists st.fs t.target = true) (hr : f.readFail = true) :
    handle_task a f t st =
      { st with failures := st.failures ++
          ["Failed to read existing " ++ t.target ++ ": " ++ f.readErr] } := by
  unfold handle_task
  simp only [h, he, hr, Bool.false_eq_true, if_false, if_true]

lemma lem_ht_skip (a : Args) (f : Faults) (t : LoadedTask) (st : St)
    (h : (!a.in_place && !(a.dry_run || a.validate_only)) = false)
    (he : fsExists st.fs t.target = true) (hr : f.readFail = false)
    (heq : (fsRead? st.fs t.target).getD "" = t.yaml_text) :
    handle_task a f t st =
      { st with log := st.log ++
          ["skip: " ++ (t.source ++ " -> " ++ t.target) ++ " (up-to-date)"],
                skipped := st.skipped + 1 } := by
  unfold handle_task
  simp only [h, he, hr, heq, Bool.false_eq_true, if_false, if_true, if_pos rfl]

lemma lem_ht_dry (a : Args) (f : Faults) (t : LoadedTask) (st : St)
    (h : (!a.in_place && !(a.dry_run || a.validate_only)) = false)
    (hu : fsExists st.fs t.target = false ∨
      (f.readFail = false ∧ (fsRead? st.fs t.target).getD "" ≠ t.yaml_text))
    (hd : (a.validate_only || a.dry_run) = true) :
    handle_task a f t st =
      { st with log := st.log ++ ["dry-run: " ++ (t.source ++ " -> " ++ t.target)],
                skipped := st.skipped + 1 } := by
  unfold handle_task
  rcases hu with hu | ⟨hr, hne⟩
  · simp only [h, hu, hd, Bool.false_eq_true, if_false, if_true]
  · simp only [h, hr, hd, Bool.false_eq_true, if_false, if_true]
    by_cases he : fsExists st.fs t.target = true
    · simp only [he, if_true, hne, if_false]
    · simp only [Bool.eq_false_iff.mpr he, Bool.false_eq_true, if_false]

lemma lem_ht_write (a : Args) (f : Faults) (t : LoadedTask) (st : St)
    (h : (!a.in_place && !(a.dry_run || a.validate_only)) = false)
    (hu : fsExists st.fs t.target = false ∨
      (f.readFail = false ∧ (fsRead? st.fs t.target).getD "" ≠ t.yaml_text))
    (hd : (a.validate_only || a.dry_run) = false) :
    handle_task a f t st =
      (match write_output a f t st.fs with
       | .error e =>
           { st with failures := st.failures ++
               ["Failed to write " ++ t.target ++ ": " ++ e] }
       | .ok fs1 =>
           { st with fs := fs1,
                     log := st.log ++ ["ok: " ++ (t.source ++ " -> " ++ t.target)],
                     converted := st.converted + 1 }) := by
  unfold handle_task
  rcases hu with hu | ⟨hr, hne⟩
  · simp only [h, hu, hd, Bool.false_eq_true, if_false, if_true]
  · simp only [h, hr, hd, Bool.false_eq_true, if_false, if_true]
    by_cases he : fsExists st.fs t.target = true
    · simp only [he, if_true, hne, if_false]
    · simp only [Bool.eq_false_iff.mpr he, Bool.false_eq_true, if_false]

lemma lem_ht_dry_outcome (a : Args) (f : Faults) (t : LoadedTask) (st : St)
    (h : a.dry_run = true ∨ a.validate_only = true) :
    (handle_task a f t st).fs = st.fs ∧
    ((handle_task a f t st).skipped = st.skipped + 1 ∨
      ∃ m, (handle_task a f t st).failures = st.failures ++ [m]) := by
  have hcond : (!a.in_place && !(a.dry_run || a.validate_only)) = false := by
    rcases h with h | h <;> simp [h]
  have hd : (a.validate_only || a.dry_run) = true := by
    rcases h with h | h <;> simp [h]
  by_cases he : fsExists st.fs t.target = true
  · by_cases hr : f.readFail = true
    · rw [lem_ht_readfail a f t st hcond he hr]
      exact ⟨rfl, Or.inr ⟨_, rfl⟩⟩
    · by_cases heq : (fsRead? st.fs t.target).getD "" = t.yaml_text
      · rw [lem_ht_skip a f t st hcond he (Bool.eq_false_iff.mpr hr) heq]
        exact ⟨rfl, Or.inl rfl⟩
      · rw [lem_ht_dry a f t st hcond
          (Or.inr ⟨Bool.eq_false_iff.mpr hr, heq⟩) hd]
        exact ⟨rfl, Or.inl rfl⟩
  · rw [lem_ht_dry a f t st hcond (Or.inl (Bool.eq_false_iff.mpr he)) hd]
    exact ⟨rfl, Or.inl rfl⟩

lemma lem_handleAll_fs_dry (a : Args) (faults : Nat → Faults)
    (h : a.dry_run = true ∨ a.validate_only = true) :
    ∀ (ts : List LoadedTask) (i : Nat) (st : St),
      (handleAll a faults i ts st).fs = st.fs := by
  intro ts
  induction ts with
  | nil => intro i st; rfl
  | cons t rest ih =>
      intro i st
      show (handleAll a faults (i + 1) rest (handle_task a (faults i) t st)).fs = st.fs
      rw [ih (i + 1) (handle_task a (faults i) t st)]
      exact (lem_ht_dry_outcome a (faults i) t st h).1

/-- C1, corrected.  In a dry-run or validate-only run the writer touches
no file: the filesystem after the whole run is the one before it, and
each task is reported either as skipped (up-to-date), as a dry-run skip,
or — the case the claim overlooks — as a per-task failure when reading
back an existing target fails; this holds regardless of the in-place,
backup and atomic flags. -/
theorem C1_theorem (a : Args) (unquote : String → String) (dump : JValue → String)
    (raw : List RawTask) (faults : Nat → Faults) (fs0 : FS)
    (h : a.dry_run = true ∨ a.validate_only = true) :
    (process a unquote dump raw faults fs0).2.fs = fs0 ∧
    (∀ f t st, (handle_task a f t st).fs = st.fs ∧
      ((handle_task a f t st).skipped = st.skipped + 1 ∨
        ∃ m, (handle_task a f t st).failures = st.failures ++ [m])) := by
  constructor
  · unfold process
    split
    · rfl
    · split
      · rfl
      · split
        · rfl
        · exact lem_handleAll_fs_dry a faults h _ 0 (initSt fs0)
  · exact fun f t st => lem_ht_dry_outcome a f t st h

/-- C1 witness: a dry run with backup and atomic enabled leaves the
filesystem exactly as it was. -/
theorem C1_witness :
    (process
      { in_place := true, backup := true, dry_run := true,
        atomic := true, validate_only := false, root := false }
      id (fun _ => "x\n") [] (fun _ => noFaults) [("p", "c")]).2.fs = [("p", "c")] :=
  ( C1_theorem _ id (fun _ => "x\n") [] (fun _ => noFaults) [("p", "c")]
    (Or.inl rfl)).1

/-- C1 counterexample: in a dry run whose existing target cannot be read
back, the task is recorded as a per-task failure — neither a skip nor a
dry-run report — refuting the claim that every task is reported skipped
or as a dry-run skip. -/
theorem C1_counterexample :
    let a : Args := { in_place := true, backup := false, dry_run := true,
                      atomic := false, validate_only := false, root := false }
    let t : LoadedTask := { source := "g/nodes/n.json", kind := .node,
                            data := .obj [], yaml_text := "id: n\n",
                            target := "g/nodes/n.yaml" }
    let f : Faults := { noFaults with readFail := true, readErr := "Permission denied" }
    let st := initSt [("g/nodes/n.yaml", "old")]
    a.dry_run = true ∧
    (handle_task a f t st).skipped = st.skipped ∧
    (handle_task a f t st).log = st.log ∧
    (handle_task a f t st).failures ≠ [] := by
  decide

lemma lem_handleAll_uptodate (a : Args) (faults : Nat → Faults)
    (hip : a.in_place = true)
    (hrf : ∀ i, (faults i).readFail = false) :
    ∀ (ts : List LoadedTask) (i : Nat) (st : St),
      (∀ t ∈ ts, fsRead? st.fs t.target = some t.yaml_text) →
      (handleAll a faults i ts st).fs = st.fs ∧
      (handleAll a faults i ts st).converted = st.converted ∧
      (handleAll a faults i ts st).skipped = st.skipped + ts.length ∧
      (handleAll a faults i ts st).failures = st.failures := by
  intro ts
  induction ts with
  | nil => intro i st _; exact ⟨rfl, rfl, rfl, rfl⟩
  | cons t rest ih =>
      intro i st hupd
      have hcond : (!a.in_place && !(a.dry_run || a.validate_only)) = false := by
        simp [hip]
      have ht : handle_task a (faults i) t st =
          { st with log := st.log ++
              ["skip: " ++ (t.source ++ " -> " ++ t.target) ++ " (up-to-date)"],
                    skipped := st.skipped + 1 } := by
        refine lem_ht_skip a (faults i) t st hcond ?_ (hrf i) ?_
        · unfold fsExists
          rw [hupd t (List.mem_cons_self t rest)]
          rfl
        · rw [hupd t (List.mem_cons_self t rest)]
          rfl
      obtain ⟨h1, h2, h3, h4⟩ := ih (i + 1)
        { st with log := st.log ++
            ["skip: " ++ (t.source ++ " -> " ++ t.target) ++ " (up-to-date)"],
                  skipped := st.skipped + 1 }
        (by intro u hu; exact hupd u (List.mem_cons_of_mem t hu))
      have hstep : handleAll a faults i (t :: rest) st =
          handleAll a faults (i + 1) rest (handle_task a (faults i) t st) := rfl
      rw [hstep, ht]
      refine ⟨h1, h2, ?_, h4⟩
      rw [h3]
      simp only [List.length_cons]
      omega

/-- C2, confirmed.  An in-place task whose target already holds exactly
the rendered text is reported skipped (up-to-date) with no write and no
backup — the whole run state changes only by the skip counter and log
line, whatever the backup flag — and a run over a filesystem where every
target is already up to date (a second run over an unchanged valid tree)
exits 0 reporting every task skipped, with the filesystem unchanged. -/
theorem C2_theorem (a : Args) (unquote : String → String) (dump : JValue → String)
    (raw : List RawTask) (tasks : List LoadedTask) (faults : Nat → Faults) (fs0 : FS)
    (hip : a.in_place = true)
    (hrf : ∀ i, (faults i).readFail = false)
    (hload : load_tasks unquote dump raw = .ok tasks)
    (hcv : a.root = true → cross_validate tasks = .ok ())
    (hupd : ∀ t ∈ tasks, fsRead? fs0 t.target = some t.yaml_text) :
    (∀ f t st, f.readFail = false → fsRead? st.fs t.target = some t.yaml_text →
      handle_task a f t st =
        { st with log := st.log ++
            ["skip: " ++ (t.source ++ " -> " ++ t.target) ++ " (up-to-date)"],
                  skipped := st.skipped + 1 }) ∧
    (process a unquote dump raw faults fs0).1 = 0 ∧
    (process a unquote dump raw faults fs0).2.fs = fs0 ∧
    (process a unquote dump raw faults fs0).2.converted = 0 ∧
    (process a unquote dump raw faults fs0).2.skipped = tasks.length ∧
    (process a unquote dump raw faults fs0).2.failures = [] := by
  have hcond : (!a.in_place && !(a.dry_run || a.validate_only)) = false := by
    simp [hip]
  refine ⟨?_, ?_⟩
  · intro f t st hf hread
    refine lem_ht_skip a f t st hcond ?_ hf ?_
    · unfold fsExists; rw [hread]; rfl
    · rw [hread]; rfl
  · by_cases hraw : raw.isEmpty = true
    · have hraw' : raw = [] := List.isEmpty_iff.mp hraw
      subst hraw'
      have htasks : tasks = [] := by
        have : (Except.ok [] : Except String (List LoadedTask)) = .ok tasks := hload
        exact (Except.ok.inj this).symm
      subst htasks
      unfold process
      exact ⟨rfl, rfl, rfl, rfl, rfl⟩
    · obtain ⟨h1, h2, h3, h4⟩ :=
        lem_handleAll_uptodate a faults hip hrf tasks 0 (initSt fs0) hupd
      unfold process
      simp only [hraw, Bool.false_eq_true, if_false, hload]
      by_cases hroot : a.root = true
      · simp only [hroot, if_true, hcv hroot]
        refine ⟨?_, h1, h2, ?_, h4⟩
        · simp only [h4]; rfl
        · rw [h3]; simp [initSt]
      · simp only [Bool.eq_false_iff.mpr hroot, Bool.false_eq_true, if_false]
        refine ⟨?_, h1, h2, ?_, h4⟩
        · simp only [h4]; rfl
        · rw [h3]; simp [initSt]

/-- C2 witness: a one-node run whose target already holds the rendered
text reports one skip, exit status 0, and leaves the filesystem alone. -/
theorem C2_witness :
    (process
      { in_place := true, backup := true, dry_run := false,
        atomic := false, validate_only := false, root := true }
      id (fun _ => "id: n\n")
      [{ source := "g/nodes/n.json", kind := .node, output_ext := ".yaml",
         schema_migrate := false, encoded_id := some "n",
         parsed := .ok (.obj [("id", .str "n"), ("template", .str "t")]) }]
      (fun _ => noFaults)
      [("g/nodes/n.yaml", "id: n\n")]).1 = 0 ∧
    (process
      { in_place := true, backup := true, dry_run := false,
        atomic := false, validate_only := false, root := true }
      id (fun _ => "id: n\n")
      [{ source := "g/nodes/n.json", kind := .node, output_ext := ".yaml",
         schema_migrate := false, encoded_id := some "n",
         parsed := .ok (.obj [("id", .str "n"), ("template", .str "t")]) }]
      (fun _ => noFaults)
      [("g/nodes/n.yaml", "id: n\n")]).2.skipped = 1 := by
  have h := C2_theorem
    { in_place := true, backup := true, dry_run := false,
      atomic := false, validate_only := false, root := true }
    id (fun _ => "id: n\n")
    [{ source := "g/nodes/n.json", kind := .node, output_ext := ".yaml",
       schema_migrate := false, encoded_id := some "n",
       parsed := .ok (.obj [("id", .str "n"), ("template", .str "t")]) }]
    [{ source := "g/nodes/n.json", kind := .node,
       data := .obj [("id", .str "n"), ("template", .str "t")],
       yaml_text := "id: n\n", target := "g/nodes/n.yaml" }]
    (fun _ => noFaults)
    [("g/nodes/n.yaml", "id: n\n")]
    rfl (fun _ => rfl) rfl (fun _ => rfl)
    (by intro t ht; simp only [List.mem_singleton] at ht; subst ht; rfl)
  exact ⟨h.2.1, h.2.2.2.2.1⟩

lemma lem_ht_trichotomy (a : Args) (f : Faults) (t : LoadedTask) (st : St) :
    ((handle_task a f t st).converted = st.converted + 1 ∧
     (handle_task a f t st).skipped = st.skipped ∧
     (handle_task a f t st).failures = st.failures) ∨
    ((handle_task a f t st).converted = st.converted ∧
     (handle_task a f t st).skipped = st.skipped + 1 ∧
     (handle_task a f t st).failures = st.failures) ∨
    (∃ m, (handle_task a f t st).converted = st.converted ∧
      (handle_task a f t st).skipped = st.skipped ∧
      (handle_task a f t st).failures = st.failures ++ [m]) := by
  by_cases hc : (!a.in_place && !(a.dry_run || a.validate_only)) = true
  · rw [lem_ht_stdout a f t st hc]
    exact Or.inl ⟨rfl, rfl, rfl⟩
  · have hc' : (!a.in_place && !(a.dry_run || a.validate_only)) = false :=
      Bool.eq_false_iff.mpr hc
    have after : (fsExists st.fs t.target = false ∨
        (f.readFail = false ∧ (fsRead? st.fs t.target).getD "" ≠ t.yaml_text)) →
        ((handle_task a f t st).converted = st.converted + 1 ∧
         (handle_task a f t st).skipped = st.skipped ∧
         (handle_task a f t st).failures = st.failures) ∨
        ((handle_task a f t st).converted = st.converted ∧
         (handle_task a f t st).skipped = st.skipped + 1 ∧
         (handle_task a f t st).failures = st.failures) ∨
        (∃ m, (handle_task a f t st).converted = st.converted ∧
          (handle_task a f t st).skipped = st.skipped ∧
          (handle_task a f t st).failures = st.failures ++ [m]) := by
      intro hu
      by_cases hd : (a.validate_only || a.dry_run) = true
      · rw [lem_ht_dry a f t st hc' hu hd]
        exact Or.inr (Or.inl ⟨rfl, rfl, rfl⟩)
      · have hd' : (a.validate_only || a.dry_run) = false := Bool.eq_false_iff.mpr hd
        rcases hw : write_output a f t st.fs with e | fs1 <;>
          rw [lem_ht_write a f t st hc' hu hd', hw]
        · exact Or.inr (Or.inr ⟨_, rfl, rfl, rfl⟩)
        · exact Or.inl ⟨rfl, rfl, rfl⟩
    by_cases he : fsExists st.fs t.target = true
    · by_cases hr : f.readFail = true
      · rw [lem_ht_readfail a f t st hc' he hr]
        exact Or.inr (Or.inr ⟨_, rfl, rfl, rfl⟩)
      · by_cases heq : (fsRead? st.fs t.target).getD "" = t.yaml_text
        · rw [lem_ht_skip a f t st hc' he (Bool.eq_false_iff.mpr hr) heq]
          exact Or.inr (Or.inl ⟨rfl, rfl, rfl⟩)
        · exact after (Or.inr ⟨Bool.eq_false_iff.mpr hr, heq⟩)
    · exact after (Or.inl (Bool.eq_false_iff.mpr he))

lemma lem_handleAll_counts (a : Args) (faults : Nat → Faults) :
    ∀ (ts : List LoadedTask) (i : Nat) (st : St),
      (handleAll a faults i ts st).converted + (handleAll a faults i ts st).skipped +
        (handleAll a faults i ts st).failures.length =
      st.converted + st.skipped + st.failures.length + ts.length := by
  intro ts
  induction ts with
  | nil => intro i st; rfl
  | cons t rest ih =>
      intro i st
      have hstep : handleAll a faults i (t :: rest) st =
          handleAll a faults (i + 1) rest (handle_task a (faults i) t st) := rfl
      rw [hstep]
      have hsum := ih (i + 1) (handle_task a (faults i) t st)
      rcases lem_ht_trichotomy a (faults i) t st with
        ⟨h1, h2, h3⟩ | ⟨h1, h2, h3⟩ | ⟨m, h1, h2, h3⟩ <;>
        rw [h1, h2, h3] at hsum <;>
        simp only [List.length_append, List.length_cons, List.length_nil] at hsum ⊢ <;>
        omega

/-- C10, confirmed.  Handling one task increments exactly one of the
converted counter, the skipped counter, or appends exactly one per-task
failure, leaving the other two untouched; consequently in any run that
passes loading and cross-validation, converted + skipped + failed in the
final summary equals the number of collected tasks. -/
theorem C10_theorem :
    (∀ (a : Args) (f : Faults) (t : LoadedTask) (st : St),
      ((handle_task a f t st).converted = st.converted + 1 ∧
       (handle_task a f t st).skipped = st.skipped ∧
       (handle_task a f t st).failures = st.failures) ∨
      ((handle_task a f t st).converted = st.converted ∧
       (handle_task a f t st).skipped = st.skipped + 1 ∧
       (handle_task a f t st).failures = st.failures) ∨
      (∃ m, (handle_task a f t st).converted = st.converted ∧
        (handle_task a f t st).skipped = st.skipped ∧
        (handle_task a f t st).failures = st.failures ++ [m])) ∧
    (∀ (a : Args) (unquote : String → String) (dump : JValue → String)
       (raw : List RawTask) (tasks : List LoadedTask) (faults : Nat → Faults) (fs0 : FS),
      load_tasks unquote dump raw = .ok tasks →
      (a.root = true → cross_validate tasks = .ok ()) →
      (process a unquote dump raw faults fs0).2.converted +
        (process a unquote dump raw faults fs0).2.skipped +
        (process a unquote dump raw faults fs0).2.failures.length = tasks.length) := by
  refine ⟨lem_ht_trichotomy, ?_⟩
  intro a unquote dump raw tasks faults fs0 hload hcv
  by_cases hraw : raw.isEmpty = true
  · have hraw' : raw = [] := List.isEmpty_iff.mp hraw
    subst hraw'
    have htasks : tasks = [] := by
      have : (Except.ok [] : Except String (List LoadedTask)) = .ok tasks := hload
      exact (Except.ok.inj this).symm
    subst htasks
    rfl
  · have hsum := lem_handleAll_counts a faults tasks 0 (initSt fs0)
    unfold process
    simp only [hraw, Bool.false_eq_true, if_false, hload]
    by_cases hroot : a.root = true
    · simp only [hroot, if_true, hcv hroot]
      simpa [initSt] using hsum
    · simp only [Bool.eq_false_iff.mpr hroot, Bool.false_eq_true, if_false]
      simpa [initSt] using hsum

/-- C10 witness: a one-task run that writes its target has converted +
skipped + failed equal to the single collected task. -/
theorem C10_witness :
    (process
      { in_place := true, backup := false, dry_run := false,
        atomic := false, validate_only := false, root := false }
      id (fun _ => "id: n\n")
      [{ source := "g/nodes/n.json", kind := .node, output_ext := ".yaml",
         schema_migrate := false, encoded_id := some "n",
         parsed := .ok (.obj [("id", .str "n"), ("template", .str "t")]) }]
      (fun _ => noFaults) []).2.converted +
    (process
      { in_place := true, backup := false, dry_run := false,
        atomic := false, validate_only := false, root := false }
      id (fun _ => "id: n\n")
      [{ source := "g/nodes/n.json", kind := .node, output_ext := ".yaml",
         schema_migrate := false, encoded_id := some "n",
         parsed := .ok (.obj [("id", .str "n"), ("template", .str "t")]) }]
      (fun _ => noFaults) []).2.skipped +
    (process
      { in_place := true, backup := false, dry_run := false,
        atomic := false, validate_only := false, root := false }
      id (fun _ => "id: n\n")
      [{ source := "g/nodes/n.json", kind := .node, output_ext := ".yaml",
         schema_migrate := false, encoded_id := some "n",
         parsed := .ok (.obj [("id", .str "n"), ("template", .str "t")]) }]
      (fun _ => noFaults) []).2.failures.length = 1 :=
  C10_theorem.2
    { in_place := true, backup := false, dry_run := false,
      atomic := false, validate_only := false, root := false }
    id (fun _ => "id: n\n")
    [{ source := "g/nodes/n.json", kind := .node, output_ext := ".yaml",
       schema_migrate := false, encoded_id := some "n",
       parsed := .ok (.obj [("id", .str "n"), ("template", .str "t")]) }]
    [{ source := "g/nodes/n.json", kind := .node,
       data := .obj [("id", .str "n"), ("template", .str "t")],
       yaml_text := "id: n\n", target := "g/nodes/n.yaml" }]
    (fun _ => noFaults) [] rfl
    (fun h => absurd h (by decide))

/-- C3, confirmed.  A failure in JSON parsing, schema validation, the
variables-specific checks (all surfacing through `load_tasks`) or
root-mode cross-validation makes the run exit with status 1 and a single
`[error]` line, with the filesystem exactly as it started and the
counters at zero: loading validates every task before any task is
handled, so no output file is written. -/
theorem C3_theorem (a : Args) (unquote : String → String) (dump : JValue → String)
    (raw : List RawTask) (faults : Nat → Faults) (fs0 : FS) (e : String)
    (h : load_tasks unquote dump raw = .error e ∨
      (∃ tasks, load_tasks unquote dump raw = .ok tasks ∧ a.root = true ∧
        cross_validate tasks = .error e)) :
    process a unquote dump raw faults fs0 =
      (1, { initSt fs0 with log := ["[error] " ++ e] }) := by
  have hraw : raw.isEmpty = false := by
    cases raw with
    | nil =>
        exfalso
        rcases h with h | ⟨tasks, hl, _, hc⟩
        · exact nomatch h
        · have htasks : tasks = [] :=
            (Except.ok.inj (hl.symm.trans rfl)).symm ▸ rfl
          subst htasks
          exact nomatch hc
    | cons t ts => rfl
  unfold process
  simp only [hraw, Bool.false_eq_true, if_false]
  rcases h with h | ⟨tasks, hl, hr, hc⟩
  · simp only [h]
  · simp only [hl, hr, if_true, hc]

/-- C3 witness: a run whose single task fails JSON parsing exits 1 with
one error line and no change to the filesystem. -/
theorem C3_witness :
    process
      { in_place := true, backup := false, dry_run := false,
        atomic := false, validate_only := false, root := false }
      id (fun _ => "x\n")
      [{ source := "v.json", kind := .variables, output_ext := ".yaml",
         schema_migrate := false, encoded_id := none,
         parsed := .error "boom" }]
      (fun _ => noFaults) [("p", "c")] =
      (1, { initSt [("p", "c")] with
              log := ["[error] " ++ "Failed to parse JSON v.json: boom"] }) :=
  C3_theorem _ id (fun _ => "x\n")
    [{ source := "v.json", kind := .variables, output_ext := ".yaml",
       schema_migrate := false, encoded_id := none,
       parsed := .error "boom" }]
    (fun _ => noFaults) [("p", "c")] "Failed to parse JSON v.json: boom"
    (Or.inl rfl)

/-- C8, confirmed.  An `OSError` while reading back an existing target is
caught and recorded as exactly one per-task failure; an `OSError` raised
anywhere inside `write_output` (mkdir, backup copy, or write) is caught
and recorded likewise; neither aborts the run — `handle_task` returns
normally and the loop goes on — and the process exit status is 0 exactly
when no fatal error occurred and the run recorded zero failures. -/
theorem C8_theorem (a : Args) (unquote : String → String) (dump : JValue → String)
    (raw : List RawTask) (faults : Nat → Faults) (fs0 : FS) :
    (∀ (f : Faults) (t : LoadedTask) (st : St),
      (a.in_place = true ∨ a.dry_run = true ∨ a.validate_only = true) →
      fsExists st.fs t.target = true → f.readFail = true →
      handle_task a f t st = { st with failures := st.failures ++
        ["Failed to read existing " ++ t.target ++ ": " ++ f.readErr] }) ∧
    (∀ (f : Faults) (t : LoadedTask) (st : St) (e : String),
      a.in_place = true → a.dry_run = false → a.validate_only = false →
      (fsExists st.fs t.target = true →
        f.readFail = false ∧ (fsRead? st.fs t.target).getD "" ≠ t.yaml_text) →
      write_output a f t st.fs = .error e →
      handle_task a f t st = { st with failures := st.failures ++
        ["Failed to write " ++ t.target ++ ": " ++ e] }) ∧
    ((process a unquote dump raw faults fs0).1 = 0 ↔
      (raw = [] ∨ ∃ tasks, load_tasks unquote dump raw = .ok tasks ∧
        (a.root = true → cross_validate tasks = .ok ()) ∧
        (handleAll a faults 0 tasks (initSt fs0)).failures = [])) := by
  refine ⟨?_, ?_, ?_⟩
  · intro f t st hmode he hr
    have hcond : (!a.in_place && !(a.dry_run || a.validate_only)) = false := by
      rcases hmode with h | h | h <;> simp [h]
    exact lem_ht_readfail a f t st hcond he hr
  · intro f t st e hip hdr hvo hne hw
    have hcond : (!a.in_place && !(a.dry_run || a.validate_only)) = false := by
      simp [hip]
    have hd : (a.validate_only || a.dry_run) = false := by simp [hdr, hvo]
    have hu : fsExists st.fs t.target = false ∨
        (f.readFail = false ∧ (fsRead? st.fs t.target).getD "" ≠ t.yaml_text) := by
      by_cases he : fsExists st.fs t.target = true
      · exact Or.inr (hne he)
      · exact Or.inl (Bool.eq_false_iff.mpr he)
    rw [lem_ht_write a f t st hcond hu hd, hw]
  · by_cases hraw : raw.isEmpty = true
    · have hraw' : raw = [] := List.isEmpty_iff.mp hraw
      subst hraw'
      simp [process]
    · have hraw'' : raw ≠ [] := by
        intro hh; subst hh; exact hraw rfl
      unfold process
      simp only [hraw, Bool.false_eq_true, if_false]
      cases hload : load_tasks unquote dump raw with
      | error e =>
          simp only [hload]
          constructor
          · intro h; exact nomatch h
          · intro h
            rcases h with h | ⟨tasks, hl, _, _⟩
            · exact absurd h hraw''
            · exact nomatch hl
      | ok tasks =>
          simp only [hload]
          by_cases hroot : a.root = true
          · cases hcv : cross_validate tasks with
            | error e =>
                simp only [hroot, if_true, hcv]
                constructor
                · intro h; exact nomatch h
                · intro h
                  rcases h with h | ⟨tasks', hl, hcr, _⟩
                  · exact absurd h hraw''
                  · have ht : tasks = tasks' := Except.ok.inj hl
                    subst ht
                    rw [hcv] at hcr
                    exact nomatch hcr trivial
            | ok u =>
                simp only [hroot, if_true, hcv]
                by_cases hfe : (handleAll a faults 0 tasks (initSt fs0)).failures.isEmpty = true
                · simp only [hfe, if_true]
                  constructor
                  · intro _
                    exact Or.inr ⟨tasks, rfl, fun _ => hcv,
                      List.isEmpty_iff.mp hfe⟩
                  · intro _; trivial
                · simp only [Bool.eq_false_iff.mpr hfe, Bool.false_eq_true, if_false]
                  constructor
                  · intro h; exact nomatch h
                  · intro h
                    rcases h with h | ⟨tasks', hl, _, hfail⟩
                    · exact absurd h hraw''
                    · have ht : tasks = tasks' := Except.ok.inj hl
                      subst ht
                      exact absurd (List.isEmpty_iff.mpr hfail) hfe
          · have hroot' : a.root = false := Bool.eq_false_iff.mpr hroot
            simp only [hroot', Bool.false_eq_true, if_false]
            by_cases hfe : (handleAll a faults 0 tasks (initSt fs0)).failures.isEmpty = true
            · simp only [hfe, if_true]
              constructor
              · intro _
                exact Or.inr ⟨tasks, rfl, fun hr => hr.elim,
                  List.isEmpty_iff.mp hfe⟩
              · intro _; trivial
            · simp only [Bool.eq_false_iff.mpr hfe, Bool.false_eq_true, if_false]
              constructor
              · intro h; exact nomatch h
              · intro h
                rcases h with h | ⟨tasks', hl, _, hfail⟩
                · exact absurd h hraw''
                · have ht : tasks = tasks' := Except.ok.inj hl
                  subst ht
                  exact absurd (List.isEmpty_iff.mpr hfail) hfe

/-- C8 witness: a write fault on a fresh target is recorded as the task's
single failure, and a clean empty run exits 0. -/
theorem C8_witness :
    (handle_task
      { in_place := true, backup := false, dry_run := false,
        atomic := false, validate_only := false, root := false }
      { noFaults with writeFail := true, writeErr := "No space left on device" }
      { source := "g/nodes/n.json", kind := .node, data := .obj [],
        yaml_text := "id: n\n", target := "g/nodes/n.yaml" }
      (initSt []) =
      { initSt [] with failures := (initSt []).failures ++
        ["Failed to write " ++ "g/nodes/n.yaml" ++ ": " ++ "No space left on device"] }) ∧
    (process
      { in_place := true, backup := false, dry_run := false,
        atomic := false, validate_only := false, root := false }
      id (fun _ => "x\n") [] (fun _ => noFaults) []).1 = 0 := by
  constructor
  · exact ( C8_theorem
      { in_place := true, backup := false, dry_run := false,
        atomic := false, validate_only := false, root := false }
      id (fun _ => "x\n") [] (fun _ => noFaults) []).2.1
      { noFaults with writeFail := true, writeErr := "No space left on device" }
      { source := "g/nodes/n.json", kind := .node, data := .obj [],
        yaml_text := "id: n\n", target := "g/nodes/n.yaml" }
      (initSt []) "No space left on device" rfl rfl rfl
      (fun he => nomatch he) rfl
  · exact (( C8_theorem
      { in_place := true, backup := false, dry_run := false,
        atomic := false, validate_only := false, root := false }
      id (fun _ => "x\n") [] (fun _ => noFaults) []).2.2).mpr (Or.inl rfl)

lemma lem_checkEdges_ok (ids : List String) :
    ∀ es : List LoadedTask, (∀ t ∈ es, edgeMissing ids t = []) →
      checkEdges ids es = .ok () := by
  intro es
  induction es with
  | nil => intro _; rfl
  | cons e rest ih =>
      intro h
      have he : edgeMissing ids e = [] := h e (List.mem_cons_self e rest)
      show (if (edgeMissing ids e).isEmpty then checkEdges ids rest
            else Except.error _) = Except.ok ()
      rw [he]
      exact ih (fun t ht => h t (List.mem_cons_of_mem e ht))

lemma lem_checkEdges_first (ids : List String) :
    ∀ (pre : List LoadedTask) (t : LoadedTask) (post : List LoadedTask),
      (∀ p ∈ pre, edgeMissing ids p = []) → edgeMissing ids t ≠ [] →
      checkEdges ids (pre ++ t :: post) = .error
        ("Edge " ++ t.source ++ " references missing nodes: " ++
          joinSep ", " (edgeMissing ids t)) := by
  intro pre
  induction pre with
  | nil =>
      intro t post _ hbad
      have hne : (edgeMissing ids t).isEmpty = false := by
        cases hm : edgeMissing ids t with
        | nil => exact absurd hm hbad
        | cons x xs => rfl
      show (if (edgeMissing ids t).isEmpty then checkEdges ids post
            else Except.error _) = Except.error _
      rw [hne]
      rfl
  | cons p rest ih =>
      intro t post hpre hbad
      have hp : edgeMissing ids p = [] := hpre p (List.mem_cons_self p rest)
      show (if (edgeMissing ids p).isEmpty then checkEdges ids (rest ++ t :: post)
            else Except.error _) = Except.error _
      rw [hp]
      exact ih t post (fun q hq => hpre q (List.mem_cons_of_mem p hq)) hbad

lemma lem_checkEdges_bad (ids : List String) :
    ∀ es : List LoadedTask, (∃ t ∈ es, edgeMissing ids t ≠ []) →
      ∃ m, checkEdges ids es = .error m := by
  intro es
  induction es with
  | nil => intro ⟨t, ht, _⟩; exact absurd ht (List.not_mem_nil t)
  | cons e rest ih =>
      intro ⟨t, ht, hbad⟩
      by_cases he : edgeMissing ids e = []
      · have hstep : checkEdges ids (e :: rest) = checkEdges ids rest := by
          show (if (edgeMissing ids e).isEmpty then checkEdges ids rest
                else Except.error _) = checkEdges ids rest
          rw [he]
          rfl
        rw [hstep]
        rcases List.mem_cons.mp ht with hte | htr
        · subst hte; exact absurd he hbad
        · exact ih ⟨t, htr, hbad⟩
      · have hne : (edgeMissing ids e).isEmpty = false := by
          cases hm : edgeMissing ids e with
          | nil => exact absurd hm he
          | cons x xs => rfl
        refine ⟨"Edge " ++ e.source ++ " references missing nodes: " ++
          joinSep ", " (edgeMissing ids e), ?_⟩
        show (if (edgeMissing ids e).isEmpty then checkEdges ids rest
              else Except.error ("Edge " ++ e.source ++
                " references missing nodes: " ++
                joinSep ", " (edgeMissing ids e))) = Except.error _
        rw [hne]
        rfl

lemma lem_empty_not_missing (ids : List String) (t : LoadedTask) :
    "" ∉ edgeMissing ids t := by
  intro hmem
  have := (List.mem_filter.mp hmem).2
  simp at this

/-- C5, confirmed.  With the node-id set collected and free of duplicates,
a trimmed-empty endpoint never counts as missing; if any edge references
missing nodes the run fails fatally, and the first such edge in order
produces the error naming that edge's source file and its missing
endpoint identifiers comma-joined; with no missing references
cross-validation succeeds. -/
theorem C5_theorem (tasks : List LoadedTask)
    (hids : ((nodeIdStrs tasks).dedup).length =
      (tasks.filter (fun t => t.kind = Kind.node)).length) :
    (∀ (ids : List String) (t : LoadedTask), "" ∉ edgeMissing ids t) ∧
    (∀ (pre : List LoadedTask) (t : LoadedTask) (post : List LoadedTask),
      tasks.filter (fun t => t.kind = Kind.edge) = pre ++ t :: post →
      (∀ p ∈ pre, edgeMissing ((nodeIdStrs tasks).dedup) p = []) →
      edgeMissing ((nodeIdStrs tasks).dedup) t ≠ [] →
      cross_validate tasks = .error
        ("Edge " ++ t.source ++ " references missing nodes: " ++
          joinSep ", " (edgeMissing ((nodeIdStrs tasks).dedup) t))) ∧
    ((∃ t ∈ tasks.filter (fun t => t.kind = Kind.edge),
        edgeMissing ((nodeIdStrs tasks).dedup) t ≠ []) →
      ∃ m, cross_validate tasks = .error m) ∧
    ((∀ t ∈ tasks.filter (fun t => t.kind = Kind.edge),
        edgeMissing ((nodeIdStrs tasks).dedup) t = []) →
      cross_validate tasks = .ok ()) := by
  have hcv : cross_validate tasks =
      checkEdges ((nodeIdStrs tasks).dedup)
        (tasks.filter (fun t => t.kind = Kind.edge)) := by
    unfold cross_validate
    exact if_neg (not_not_intro hids)
  refine ⟨lem_empty_not_missing, ?_, ?_, ?_⟩
  · intro pre t post hsplit hpre hbad
    rw [hcv, hsplit]
    exact lem_checkEdges_first _ pre t post hpre hbad
  · intro hex
    rw [hcv]
    exact lem_checkEdges_bad _ _ hex
  · intro hall
    rw [hcv]
    exact lem_checkEdges_ok _ _ hall

/-- C5 witness: one node `a` and one edge whose trimmed target `b` is not
a collected node id make root-mode cross-validation fail naming the edge
file and the missing identifier. -/
theorem C5_witness :
    cross_validate
      [{ source := "g/nodes/a.json", kind := .node,
         data := .obj [("id", .str "a"), ("template", .str "t")],
         yaml_text := "", target := "g/nodes/a.yaml" },
       { source := "g/edges/e.json", kind := .edge,
         data := .obj [("source", .str "a"), ("target", .str " b ")],
         yaml_text := "", target := "g/edges/e.yaml" }] = .error
      ("Edge " ++ "g/edges/e.json" ++ " references missing nodes: " ++
        joinSep ", " (edgeMissing ["a"]
          { source := "g/edges/e.json", kind := .edge,
            data := .obj [("source", .str "a"), ("target", .str " b ")],
            yaml_text := "", target := "g/edges/e.yaml" })) :=
  ( C5_theorem
    [{ source := "g/nodes/a.json", kind := .node,
       data := .obj [("id", .str "a"), ("template", .str "t")],
       yaml_text := "", target := "g/nodes/a.yaml" },
     { source := "g/edges/e.json", kind := .edge,
       data := .obj [("source", .str "a"), ("target", .str " b ")],
       yaml_text := "", target := "g/edges/e.yaml" }] rfl).2.1
    [] _ []
    rfl (fun p hp => absurd hp (List.not_mem_nil p)) (by decide)

lemma lem_setAssoc_self : ∀ (fs : List (String × JValue)) (k : String) (v : JValue),
    lookupF fs k = some v → setAssoc fs k v = fs := by
  intro fs
  induction fs with
  | nil => intro k v h; exact nomatch h
  | cons p rest ih =>
      intro k v h
      by_cases hk : p.1 = k
      · have hfind : List.find? (fun q => q.1 = k) (p :: rest) = some p :=
          List.find?_cons_of_pos rest (by simp [hk])
        unfold lookupF at h
        rw [hfind] at h
        have hv : p.2 = v := Option.some.inj h
        show (if p.1 = k then (k, v) :: rest else _) = p :: rest
        rw [if_pos hk, ← hk, ← hv]
      · have hfind : List.find? (fun q => q.1 = k) (p :: rest) =
            List.find? (fun q => q.1 = k) rest :=
          List.find?_cons_of_neg rest (by simp [hk])
        unfold lookupF at h
        rw [hfind] at h
        show (if p.1 = k then (k, v) :: rest else p :: setAssoc rest k v) = p :: rest
        rw [if_neg hk, ih k v h]

/-- C6, confirmed.  With normalization enabled, a node or edge document
lacking an id (absent or empty string) gets the percent-decoded encoded
identifier — a string — assigned as its id; a document whose id is a
non-empty string is returned completely untouched. -/
theorem C6_theorem (unquote : String → String) (kind : Kind) (e : String)
    (fs : List (String × JValue))
    (hk : kind = Kind.node ∨ kind = Kind.edge)
    (hne : unquote e ≠ "") :
    ((lookupF fs "id" = none ∨ lookupF fs "id" = some (.str "")) →
      apply_normalization unquote kind (some e) (.obj fs) =
        setField (.obj fs) "id" (.str (unquote e))) ∧
    (∀ s, s ≠ "" → lookupF fs "id" = some (.str s) →
      apply_normalization unquote kind (some e) (.obj fs) = .obj fs) := by
  have hnorm : apply_normalization unquote kind (some e) (.obj fs) =
      (if unquote e = "" then JValue.obj fs
       else
         let current := getFieldD (.obj fs) "id" .null
         setField (.obj fs) "id"
           (.str (pyStr (if truthy current then current else .str (unquote e))))) := by
    rcases hk with hk | hk <;> subst hk <;> rfl
  rw [hnorm, if_neg hne]
  have hg : getFieldD (JValue.obj fs) "id" JValue.null =
      (lookupF fs "id").getD JValue.null := rfl
  constructor
  · intro hid
    have hcur : getFieldD (JValue.obj fs) "id" JValue.null = JValue.null ∨
        getFieldD (JValue.obj fs) "id" JValue.null = JValue.str "" := by
      rw [hg]
      rcases hid with hid | hid <;> rw [hid]
      · exact Or.inl rfl
      · exact Or.inr rfl
    show setField (JValue.obj fs) "id"
        (JValue.str (pyStr
          (if truthy (getFieldD (JValue.obj fs) "id" JValue.null) = true
           then getFieldD (JValue.obj fs) "id" JValue.null
           else JValue.str (unquote e)))) =
      setField (JValue.obj fs) "id" (JValue.str (unquote e))
    rcases hcur with hcur | hcur <;> rw [hcur] <;> rfl
  · intro s hs hid
    have hcur : getFieldD (JValue.obj fs) "id" JValue.null = JValue.str s := by
      rw [hg, hid]
      rfl
    have htr : truthy (JValue.str s) = true := by
      simp [truthy, hs]
    show setField (JValue.obj fs) "id"
        (JValue.str (pyStr
          (if truthy (getFieldD (JValue.obj fs) "id" JValue.null) = true
           then getFieldD (JValue.obj fs) "id" JValue.null
           else JValue.str (unquote e)))) = JValue.obj fs
    rw [hcur]
    simp only [htr, if_true]
    show JValue.obj (setAssoc fs "id" (JValue.str s)) = JValue.obj fs
    rw [lem_setAssoc_self fs "id" (JValue.str s) hid]

/-- C6 witness: a node document without an id receives the decoded
identifier; one with id `"x"` is left untouched even under normalization. -/
theorem C6_witness :
    (apply_normalization (fun _ => "n 1") Kind.node (some "n%201")
        (.obj [("template", .str "t")]) =
      setField (.obj [("template", .str "t")]) "id" (.str ((fun _ => "n 1") "n%201"))) ∧
    (apply_normalization (fun _ => "n 1") Kind.node (some "n%201")
        (.obj [("id", .str "x"), ("template", .str "t")]) =
      .obj [("id", .str "x"), ("template", .str "t")]) :=
  ⟨( C6_theorem (fun _ => "n 1") Kind.node "n%201" [("template", .str "t")]
      (Or.inl rfl) (by decide)).1 (Or.inl rfl),
   ( C6_theorem (fun _ => "n 1") Kind.node "n%201"
      [("id", .str "x"), ("template", .str "t")]
      (Or.inl rfl) (by decide)).2 "x" (by decide) rfl⟩

lemma lem_elemLt_trans {a b c : PathElem} (h1 : elemLt a b = true)
    (h2 : elemLt b c = true) : elemLt a c = true := by
  cases a <;> cases b <;> cases c <;>
    simp only [elemLt, decide_eq_true_iff, Bool.false_eq_true] at * <;>
    first
    | trivial
    | exact lt_trans h1 h2

lemma lem_elemLt_total {a b : PathElem} (h : a ≠ b) :
    elemLt a b = true ∨ elemLt b a = true := by
  cases a with
  | str s =>
      cases b with
      | str u =>
          have hsu : s ≠ u := fun hh => h (by rw [hh])
          rcases lt_or_gt_of_ne hsu with hlt | hgt
          · exact Or.inl (by simp [elemLt, hlt])
          · exact Or.inr (by simp [elemLt, hgt])
      | idx m => exact Or.inr (by simp [elemLt])
  | idx n =>
      cases b with
      | str u => exact Or.inl (by simp [elemLt])
      | idx m =>
          have hnm : n ≠ m := fun hh => h (by rw [hh])
          rcases lt_or_gt_of_ne hnm with hlt | hgt
          · exact Or.inl (by simp [elemLt, hlt])
          · exact Or.inr (by simp [elemLt, hgt])

lemma lem_elemLt_asymm {a b : PathElem} (h1 : elemLt a b = true)
    (h2 : elemLt b a = true) : False := by
  cases a <;> cases b <;>
    simp only [elemLt, decide_eq_true_iff, Bool.false_eq_true] at * <;>
    exact absurd h2 (lt_asymm h1)

lemma lem_pathLe_total : ∀ p q : List PathElem,
    pathLe p q = true ∨ pathLe q p = true := by
  intro p
  induction p with
  | nil => intro q; exact Or.inl rfl
  | cons a as ih =>
      intro q
      cases q with
      | nil => exact Or.inr rfl
      | cons b bs =>
          by_cases hab : a = b
          · subst hab
            rcases ih bs with h | h
            · exact Or.inl (by simp [pathLe, h])
            · exact Or.inr (by simp [pathLe, h])
          · rcases lem_elemLt_total hab with h | h
            · exact Or.inl (by simp [pathLe, hab, h])
            · have hba : ¬ b = a := fun hh => hab hh.symm
              exact Or.inr (by simp [pathLe, hba, h])

lemma lem_pathLe_trans : ∀ p q r : List PathElem,
    pathLe p q = true → pathLe q r = true → pathLe p r = true := by
  intro p
  induction p with
  | nil => intro q r _ _; rfl
  | cons a as ih =>
      intro q r h1 h2
      cases q with
      | nil => exact nomatch h1
      | cons b bs =>
          cases r with
          | nil => exact nomatch h2
          | cons c cs =>
              by_cases hab : a = b <;> by_cases hbc : b = c
              · subst hab; subst hbc
                simp only [pathLe, if_pos rfl] at h1 h2 ⊢
                exact ih bs cs h1 h2
              · subst hab
                simp only [pathLe, if_pos rfl, if_neg hbc] at h1 h2 ⊢
                exact h2
              · subst hbc
                simp only [pathLe, if_neg hab] at h1 ⊢
                exact h1
              · simp only [pathLe, if_neg hab, if_neg hbc] at h1 h2
                have hac : a ≠ c := by
                  intro hh
                  subst hh
                  exact lem_elemLt_asymm h1 h2
                simp only [pathLe, if_neg hac]
                exact lem_elemLt_trans h1 h2

instance : IsTotal VError VErrLE :=
  ⟨fun x y => by
    unfold VErrLE
    rcases lem_pathLe_total x.path y.path with h | h
    · exact Or.inl h
    · exact Or.inr h⟩

instance : IsTrans VError VErrLE :=
  ⟨fun x y z h1 h2 => lem_pathLe_trans x.path y.path z.path h1 h2⟩

/-- C7, confirmed.  When a document violates its kind's schema, loading
aborts with a single fatal message listing every collected violation
(the sorted list is a permutation of the full list `iter_errors`
produces), sorted by field path, semicolon-joined, each prefixed by its
dot-joined field path, with no prefix when the path is empty. -/
theorem C7_theorem (unquote : String → String) (dump : JValue → String)
    (t : RawTask) (d0 : JValue) (hp : t.parsed = .ok d0)
    (hbad : iter_errors t.kind
      (if t.schema_migrate then apply_normalization unquote t.kind t.encoded_id d0
       else d0) ≠ []) :
    loadOne unquote dump t = .error ("Validation failed for " ++ t.source ++ ": " ++
      joinSep "; " ((sortErrors (iter_errors t.kind
        (if t.schema_migrate then apply_normalization unquote t.kind t.encoded_id d0
         else d0))).map format_validation_error)) ∧
    List.Sorted VErrLE (sortErrors (iter_errors t.kind
      (if t.schema_migrate then apply_normalization unquote t.kind t.encoded_id d0
       else d0))) ∧
    (sortErrors (iter_errors t.kind
      (if t.schema_migrate then apply_normalization unquote t.kind t.encoded_id d0
       else d0))).Perm (iter_errors t.kind
      (if t.schema_migrate then apply_normalization unquote t.kind t.encoded_id d0
       else d0)) ∧
    (∀ err : VError, format_validation_error err =
      (if dotJoin err.path = "" then "" else dotJoin err.path ++ ": ") ++ err.message) ∧
    (∀ err : VError, err.path = [] → format_validation_error err = err.message) := by
  refine ⟨?_, List.sorted_insertionSort VErrLE _, List.perm_insertionSort VErrLE _,
    fun err => rfl, fun err h => by simp [format_validation_error, h, dotJoin, joinSep]⟩
  have hemp : (sortErrors (iter_errors t.kind
      (if t.schema_migrate then apply_normalization unquote t.kind t.encoded_id d0
       else d0))).isEmpty = false := by
    have hlen := (List.perm_insertionSort VErrLE (iter_errors t.kind
      (if t.schema_migrate then apply_normalization unquote t.kind t.encoded_id d0
       else d0))).length_eq
    cases hs : sortErrors (iter_errors t.kind
        (if t.schema_migrate then apply_normalization unquote t.kind t.encoded_id d0
         else d0)) with
    | nil =>
        exfalso
        unfold sortErrors at hs
        rw [hs] at hlen
        exact hbad (List.eq_nil_of_length_eq_zero hlen.symm)
    | cons x xs => rfl
  unfold loadOne
  rw [hp]
  simp only [hemp, Bool.false_eq_true, if_false]

/-- C7 witness: an empty meta document (missing all four required fields)
aborts loading with the full sorted, semicolon-joined violation list. -/
theorem C7_witness :
    loadOne id (fun _ => "x\n")
      { source := "g/graph.meta.json", kind := .meta, output_ext := ".yaml",
        schema_migrate := false, encoded_id := none,
        parsed := .ok (.obj []) } = .error
      ("Validation failed for " ++ "g/graph.meta.json" ++ ": " ++
        joinSep "; " ((sortErrors (iter_errors Kind.meta
          (if false then apply_normalization id Kind.meta none (.obj [])
           else .obj []))).map format_validation_error)) :=
  ( C7_theorem id (fun _ => "x\n")
    { source := "g/graph.meta.json", kind := .meta, output_ext := ".yaml",
      schema_migrate := false, encoded_id := none,
      parsed := .ok (.obj []) }
    (.obj []) rfl (by decide)).1

lemma lem_checkStrProp_some (fs : List (String × JValue)) (k : String)
    (path : List PathElem) (v : JValue) (h : checkStrProp fs k path = [])
    (hk : lookupF fs k = some v) : ∃ s, v = .str s := by
  unfold checkStrProp at h
  rw [hk] at h
  cases v <;> first | exact ⟨_, rfl⟩ | exact nomatch h

lemma lem_varEntry_shape (i : Nat) (e : JValue) (h : validateVarEntry i e = []) :
    ∃ fs k, e = .obj fs ∧ lookupF fs "key" = some (.str k) := by
  cases e with
  | obj fs =>
      unfold validateVarEntry at h
      rw [List.append_eq_nil] at h
      obtain ⟨h, _⟩ := h
      rw [List.append_eq_nil] at h
      obtain ⟨h, _⟩ := h
      rw [List.append_eq_nil] at h
      obtain ⟨hreq, hkey⟩ := h
      have hfil : List.filter (fun k => (lookupF fs k).isNone) ["key", "value"] = [] :=
        List.map_eq_nil_iff.mp hreq
      have hnone := List.filter_eq_nil_iff.mp hfil "key" (by simp)
      cases hk : lookupF fs "key" with
      | none => exact absurd (by rw [hk]; rfl) hnone
      | some v =>
          obtain ⟨s, hs⟩ := lem_checkStrProp_some fs "key" [.idx i] v hkey hk
          subst hs
          exact ⟨fs, s, rfl, hk⟩
  | null => exact nomatch h
  | bool b => exact nomatch h
  | int n => exact nomatch h
  | str s => exact nomatch h
  | arr xs => exact nomatch h

lemma lem_validateItems_shape : ∀ (es : List JValue) (i : Nat),
    validateItems i es = [] →
    ∀ e ∈ es, ∃ fs k, e = .obj fs ∧ lookupF fs "key" = some (.str k) := by
  intro es
  induction es with
  | nil => intro i _ e he; exact absurd he (List.not_mem_nil e)
  | cons x rest ih =>
      intro i h e he
      have h0 : validateVarEntry i x ++ validateItems (i + 1) rest = [] := h
      rw [List.append_eq_nil] at h0
      rcases List.mem_cons.mp he with he | he
      · subst he; exact lem_varEntry_shape i e h0.1
      · exact ih (i + 1) h0.2 e he

lemma lem_assert_eq_checkVars (src : String) (es : List JValue) :
    assert_unique_variable_keys src (.arr es) = checkVars src 0 [] es := by
  cases es with
  | nil => rfl
  | cons x rest => rfl

lemma lem_checkVars_cons_obj (src : String) (n : Nat) (seen : List (String × Nat))
    (fs : List (String × JValue)) (rest : List JValue) :
    checkVars src n seen (.obj fs :: rest) =
      (if trimKey (.obj fs) = "" then
        .error ("Variable at index " ++ toString n ++ " missing key in " ++ src)
      else
        match (seen.find? (fun p => p.1 = trimKey (.obj fs))).map (fun p => p.2) with
        | some prev =>
            .error ("Duplicate variable key " ++ pyQuote (trimKey (.obj fs)) ++
              " in " ++ src ++ " (indexes " ++ toString prev ++ " and " ++
              toString n ++ ")")
        | none => checkVars src (n + 1) (seen ++ [(trimKey (.obj fs), n)]) rest) := rfl

lemma lem_checkVars_sound (src : String) : ∀ (es : List JValue) (n : Nat)
    (seen : List (String × Nat)),
    checkVars src n seen es = .ok () →
    (∀ e ∈ es, trimKey e ≠ "") ∧
    List.Pairwise (fun x y => trimKey x ≠ trimKey y) es ∧
    (∀ e ∈ es, ∀ p ∈ seen, trimKey e ≠ p.1) := by
  intro es
  induction es with
  | nil =>
      intro n seen _
      exact ⟨fun e he => absurd he (List.not_mem_nil e), List.Pairwise.nil,
        fun e he => absurd he (List.not_mem_nil e)⟩
  | cons x rest ih =>
      intro n seen h
      cases x with
      | obj fs =>
          rw [lem_checkVars_cons_obj] at h
          by_cases hkey : trimKey (JValue.obj fs) = ""
          · rw [if_pos hkey] at h; exact nomatch h
          · rw [if_neg hkey] at h
            cases hf : (seen.find? (fun p => p.1 = trimKey (JValue.obj fs))).map
                (fun p => p.2) with
            | some prev => rw [hf] at h; exact nomatch h
            | none =>
                rw [hf] at h
                obtain ⟨h1, h2, h3⟩ :=
                  ih (n + 1) (seen ++ [(trimKey (JValue.obj fs), n)]) h
                have hnone : seen.find? (fun p => p.1 = trimKey (JValue.obj fs)) = none := by
                  cases hfo : seen.find? (fun p => p.1 = trimKey (JValue.obj fs)) with
                  | none => rfl
                  | some q => rw [hfo] at hf; exact nomatch hf
                refine ⟨?_, ?_, ?_⟩
                · intro e he
                  rcases List.mem_cons.mp he with he | he
                  · subst he; exact hkey
                  · exact h1 e he
                · refine List.Pairwise.cons ?_ h2
                  intro y hy
                  have hfr := h3 y hy (trimKey (JValue.obj fs), n) (by simp)
                  exact fun hh => hfr hh.symm
                · intro e he p hp
                  rcases List.mem_cons.mp he with he | he
                  · subst he
                    have hfr := List.find?_eq_none.mp hnone p hp
                    simp only [decide_eq_true_iff] at hfr
                    exact fun hh => hfr hh.symm
                  · exact h3 e he p (List.mem_append_left _ hp)
      | null => exact nomatch h
      | bool b => exact nomatch h
      | int n' => exact nomatch h
      | str s => exact nomatch h
      | arr xs => exact nomatch h

/-- The `seen` map that `assert_unique_variable_keys` accumulates after
processing `pre` starting at index `n`: each trimmed key with its index. -/
def seenOf (n : Nat) : List JValue → List (String × Nat)
  | [] => []
  | e :: es => (trimKey e, n) :: seenOf (n + 1) es

lemma lem_checkVars_exec (src : String) : ∀ (pre : List JValue) (n : Nat)
    (seen : List (String × Nat)) (rest : List JValue),
    (∀ e ∈ pre, ∃ fs, e = JValue.obj fs) →
    (∀ e ∈ pre, trimKey e ≠ "") →
    (∀ e ∈ pre, ∀ p ∈ seen, trimKey e ≠ p.1) →
    List.Pairwise (fun x y => trimKey x ≠ trimKey y) pre →
    checkVars src n seen (pre ++ rest) =
      checkVars src (n + pre.length) (seen ++ seenOf n pre) rest := by
  intro pre
  induction pre with
  | nil => intro n seen rest _ _ _ _; simp [seenOf]
  | cons x pre' ih =>
      intro n seen rest hobj hne hfresh hpw
      obtain ⟨fs, hx⟩ := hobj x (List.mem_cons_self x pre')
      subst hx
      rw [List.cons_append, lem_checkVars_cons_obj,
        if_neg (hne _ (List.mem_cons_self _ pre'))]
      have hfind : seen.find? (fun p => p.1 = trimKey (JValue.obj fs)) = none := by
        rw [List.find?_eq_none]
        intro q hq
        simp only [decide_eq_true_iff]
        intro hh
        exact (hfresh _ (List.mem_cons_self _ pre') q hq) hh.symm
      rw [show (seen.find? (fun p => p.1 = trimKey (JValue.obj fs))).map
            (fun p => p.2) = none by rw [hfind]; rfl]
      have hrec := ih (n + 1) (seen ++ [(trimKey (JValue.obj fs), n)]) rest
        (fun e he => hobj e (List.mem_cons_of_mem _ he))
        (fun e he => hne e (List.mem_cons_of_mem _ he))
        (fun e he p hp => by
          rcases List.mem_append.mp hp with hp | hp
          · exact hfresh e (List.mem_cons_of_mem _ he) p hp
          · have hp' : p = (trimKey (JValue.obj fs), n) := by simpa using hp
            subst hp'
            have hd := (List.pairwise_cons.mp hpw).1 e he
            exact fun hh => hd hh.symm)
        (List.pairwise_cons.mp hpw).2
      rw [hrec]
      have harg : n + 1 + pre'.length = n + (JValue.obj fs :: pre').length := by
        simp only [List.length_cons]
        omega
      rw [harg, List.append_assoc]
      rfl

lemma lem_seenOf_find : ∀ (pre : List JValue) (key : String) (n : Nat) (i : Nat)
    (hi : i < pre.length),
    trimKey (pre.get ⟨i, hi⟩) = key →
    (∀ j (hj : j < pre.length), j < i → trimKey (pre.get ⟨j, hj⟩) ≠ key) →
    (seenOf n pre).find? (fun p => p.1 = key) = some (key, n + i) := by
  intro pre
  induction pre with
  | nil => intro key n i hi; exact absurd hi (Nat.not_lt_zero i)
  | cons x pre' ih =>
      intro key n i hi hkey hearlier
      cases i with
      | zero =>
          have hx : trimKey x = key := hkey
          show List.find? _ ((trimKey x, n) :: seenOf (n + 1) pre') = _
          rw [List.find?_cons_of_pos _ (by simp [hx]), hx, Nat.add_zero]
      | succ i' =>
          have hx : trimKey x ≠ key := hearlier 0 (by simp) (Nat.succ_pos i')
          show List.find? _ ((trimKey x, n) :: seenOf (n + 1) pre') = _
          rw [List.find?_cons_of_neg _ (by simp [hx])]
          have hi' : i' < pre'.length := Nat.succ_lt_succ_iff.mp hi
          have hrec := ih key (n + 1) i' hi' hkey
            (fun j hj hji => hearlier (j + 1) (Nat.succ_lt_succ hj) (Nat.succ_lt_succ hji))
          rw [hrec]
          have : n + 1 + i' = n + (i' + 1) := by omega
          rw [this]

/-- C4, confirmed.  For a variables document that passes schema
validation: any two entries sharing a trimmed key make the check fail
fatally (whatever their values), and when the earlier entries are clean
the error names the duplicated key and both indices; an entry whose key
trims to empty also fails fatally, naming its index. -/
theorem C4_theorem (src : String) (d : JValue) (es : List JValue)
    (hv : iter_errors Kind.variables d = []) (hd : d = .arr es) :
    (∀ (i j : Nat) (hi : i < es.length) (hj : j < es.length), i ≠ j →
      trimKey (es.get ⟨i, hi⟩) = trimKey (es.get ⟨j, hj⟩) →
      ∃ m, assert_unique_variable_keys src d = .error m) ∧
    (∀ (i : Nat) (hi : i < es.length), trimKey (es.get ⟨i, hi⟩) = "" →
      ∃ m, assert_unique_variable_keys src d = .error m) ∧
    (∀ (i j : Nat) (hi : i < es.length) (hj : j < es.length), i < j →
      (∀ e ∈ es.take j, trimKey e ≠ "") →
      List.Pairwise (fun x y => trimKey x ≠ trimKey y) (es.take j) →
      trimKey (es.get ⟨j, hj⟩) = trimKey (es.get ⟨i, hi⟩) →
      assert_unique_variable_keys src d = .error
        ("Duplicate variable key " ++ pyQuote (trimKey (es.get ⟨j, hj⟩)) ++
          " in " ++ src ++ " (indexes " ++ toString i ++ " and " ++
          toString j ++ ")")) ∧
    (∀ (j : Nat) (hj : j < es.length),
      (∀ e ∈ es.take j, trimKey e ≠ "") →
      List.Pairwise (fun x y => trimKey x ≠ trimKey y) (es.take j) →
      trimKey (es.get ⟨j, hj⟩) = "" →
      assert_unique_variable_keys src d = .error
        ("Variable at index " ++ toString j ++ " missing key in " ++ src)) := by
  subst hd
  have hitems : validateItems 0 es = [] := by
    simpa [iter_errors, validateVariables] using hv
  have hshape := lem_validateItems_shape es 0 hitems
  rw [lem_assert_eq_checkVars]
  have hrun : ∀ (j : Nat) (hj : j < es.length),
      (∀ e ∈ es.take j, trimKey e ≠ "") →
      List.Pairwise (fun x y => trimKey x ≠ trimKey y) (es.take j) →
      checkVars src 0 [] es =
        checkVars src j (seenOf 0 (es.take j))
          (es.get ⟨j, hj⟩ :: es.drop (j + 1)) := by
    intro j hj hne hpw
    have hobjs : ∀ e ∈ es.take j, ∃ fs, e = JValue.obj fs := by
      intro e he
      obtain ⟨fs, k, hfs, _⟩ := hshape e (List.take_subset j es he)
      exact ⟨fs, hfs⟩
    have hsplit : es.take j ++ (es.get ⟨j, hj⟩ :: es.drop (j + 1)) = es := by
      rw [show (es.get ⟨j, hj⟩ :: es.drop (j + 1)) = es.drop j from
        (List.drop_eq_getElem_cons hj).symm]
      exact List.take_append_drop j es
    have hexec := lem_checkVars_exec src (es.take j) 0 []
      (es.get ⟨j, hj⟩ :: es.drop (j + 1)) hobjs hne
      (fun e _ p hp => absurd hp (List.not_mem_nil p)) hpw
    rw [hsplit] at hexec
    rw [hexec]
    have hlen : (es.take j).length = j := by
      rw [List.length_take]
      exact min_eq_left (Nat.le_of_lt hj)
    rw [hlen]
    simp only [Nat.zero_add, List.nil_append]
  refine ⟨?_, ?_, ?_, ?_⟩
  · intro i j hi hj hij heq
    cases hcv : checkVars src 0 [] es with
    | error m => exact ⟨m, rfl⟩
    | ok u =>
        exfalso
        cases u
        obtain ⟨_, hpw, _⟩ := lem_checkVars_sound src es 0 [] hcv
        rcases Nat.lt_or_ge i j with hlt | hge
        · exact (List.pairwise_iff_get.mp hpw ⟨i, hi⟩ ⟨j, hj⟩ hlt) heq
        · have hlt : j < i := lt_of_le_of_ne hge (fun hh => hij hh.symm)
          exact (List.pairwise_iff_get.mp hpw ⟨j, hj⟩ ⟨i, hi⟩ hlt) heq.symm
  · intro i hi hkey
    cases hcv : checkVars src 0 [] es with
    | error m => exact ⟨m, rfl⟩
    | ok u =>
        exfalso
        cases u
        obtain ⟨hne', _, _⟩ := lem_checkVars_sound src es 0 [] hcv
        exact (hne' _ (List.get_mem es i hi)) hkey
  · intro i j hi hj hij hne hpw heq
    rw [hrun j hj hne hpw]
    obtain ⟨fs, k, hdup, _⟩ := hshape (es.get ⟨j, hj⟩) (List.get_mem es j hj)
    have hi' : i < (es.take j).length := by
      rw [List.length_take]
      omega
    have hgt : (es.take j).get ⟨i, hi'⟩ = es.get ⟨i, hi⟩ := by
      rw [List.get_take es hi hij]
    have hkeyne : trimKey (es.get ⟨j, hj⟩) ≠ "" := by
      rw [heq, ← hgt]
      exact hne _ (List.get_mem _ _ _)
    have hfind := lem_seenOf_find (es.take j) (trimKey (es.get ⟨j, hj⟩)) 0 i hi'
      (by rw [hgt]; exact heq.symm)
      (by
        intro j' hj' hji
        have hne'' := List.pairwise_iff_get.mp hpw ⟨j', hj'⟩ ⟨i, hi'⟩ hji
        rw [hgt] at hne''
        intro hh
        exact hne'' (hh.trans heq))
    have hkeyne' : trimKey (JValue.obj fs) ≠ "" := by rw [← hdup]; exact hkeyne
    rw [hdup, lem_checkVars_cons_obj, if_neg hkeyne']
    have hfind' : ((seenOf 0 (es.take j)).find?
        (fun p => p.1 = trimKey (JValue.obj fs))).map (fun p => p.2) = some i := by
      rw [← hdup, hfind]
      simp
    rw [hfind']
  · intro j hj hne hpw hkey
    rw [hrun j hj hne hpw]
    obtain ⟨fs, k, hdup, _⟩ := hshape (es.get ⟨j, hj⟩) (List.get_mem es j hj)
    rw [hdup, lem_checkVars_cons_obj, if_pos (by rw [← hdup]; exact hkey)]

/-- C4 witness: two schema-valid entries whose keys both trim to `env`
(values differing) fail with the message naming the key and indices 0
and 1. -/
theorem C4_witness :
    assert_unique_variable_keys "v.json"
      (.arr [.obj [("key", .str "env"), ("value", .str "prod")],
             .obj [("key", .str " env "), ("value", .str "dev")]]) = .error
      ("Duplicate variable key " ++
        pyQuote (trimKey (.obj [("key", .str " env "), ("value", .str "dev")])) ++
        " in " ++ "v.json" ++ " (indexes " ++ toString 0 ++ " and " ++
        toString 1 ++ ")") :=
  ( C4_theorem "v.json"
    (.arr [.obj [("key", .str "env"), ("value", .str "prod")],
           .obj [("key", .str " env "), ("value", .str "dev")]])
    [.obj [("key", .str "env"), ("value", .str "prod")],
     .obj [("key", .str " env "), ("value", .str "dev")]]
    (by decide) rfl).2.2.1 0 1 (by decide) (by decide) (by decide)
    (by decide) (by decide) (by decide)
